import Mathlib

/-!
Verification of the repoll coverage-reporting scripts.

The two Python entry points (`coverage_analysis.py` and
`simple_coverage_calc.py`) are shallowly embedded below.  Lines of the
input file are modelled as lists of characters (`Chars`); the scripts'
integer arithmetic is exact, and the floating-point percentage
arithmetic is modelled over `ℚ`.  A run that raises an uncaught
exception (Python `int()` on a malformed token) is modelled as
`Except.error ()`.
-/

abbrev Chars := List Char

/-- Whitespace characters recognised by Python's `str.split()` /
`str.strip()` (ASCII subset). -/
def pyIsSpace (c : Char) : Bool :=
  c = ' ' || c = '\t' || c = '\n' || c = '\r' || c = '\x0b' || c = '\x0c'

/-- Python `str.strip()`: drop leading and trailing whitespace. -/
def pyStrip (s : Chars) : Chars :=
  ((s.dropWhile pyIsSpace).reverse.dropWhile pyIsSpace).reverse

/-- Helper for `pySplit`: `cur` holds the characters of the token being
read, in reverse order. -/
def pySplitAux (cur : Chars) : Chars → List Chars
  | [] => if cur = [] then [] else [cur.reverse]
  | c :: cs =>
    if pyIsSpace c then
      if cur = [] then pySplitAux [] cs
      else cur.reverse :: pySplitAux [] cs
    else pySplitAux (c :: cur) cs

/-- Python `str.split()` with no argument: maximal runs of
non-whitespace characters; empty tokens never occur. -/
def pySplit (s : Chars) : List Chars :=
  pySplitAux [] s

/-- Numeric value of an ASCII decimal digit. -/
def digitVal (c : Char) : Option Nat :=
  if '0' ≤ c && c ≤ '9' then some (c.toNat - '0'.toNat) else none

/-- Continue reading a digit string after its first digit.  A single
underscore may separate two digits (Python numeric literal rule). -/
def digitsAux (acc : Nat) : Chars → Option Nat
  | [] => some acc
  | c :: cs =>
    if c = '_' then
      match cs with
      | [] => none
      | d :: cs' =>
        match digitVal d with
        | some v => digitsAux (acc * 10 + v) cs'
        | none => none
    else
      match digitVal c with
      | some v => digitsAux (acc * 10 + v) cs
      | none => none

/-- Natural-number value of a nonempty digit string. -/
def parseDigits : Chars → Option Nat
  | [] => none
  | c :: cs =>
    match digitVal c with
    | some v => digitsAux v cs
    | none => none

/-- Python `int(token)` on a whitespace-free token: an optional single
sign followed by a nonempty digit string; `none` models the
`ValueError` raised on anything else. -/
def pyInt? (s : Chars) : Option Int :=
  match s with
  | '+' :: rest => (parseDigits rest).map (fun n => (n : Int))
  | '-' :: rest => (parseDigits rest).map (fun n => -(n : Int))
  | t => (parseDigits t).map (fun n => (n : Int))

/-- `file_part[:file_part.rfind(':')]` with the `rfind = -1` check:
the characters strictly before the last colon, or `none` when the
string has no colon. -/
def beforeLastColon : Chars → Option Chars
  | [] => none
  | c :: cs =>
    match beforeLastColon cs with
    | some r => some (c :: r)
    | none => if c = ':' then some [] else none

/-- The module-root literal of `coverage_analysis.py` line 38. -/
def modRoot : Chars := ("github.com/khicago/repoll/").toList

/-- Python `str.replace(pat, '')`: remove every leftmost,
non-overlapping occurrence of `pat`, scanning left to right.  The fuel
argument (initially the length of the string) makes the recursion
structural; each step consumes at least one character when `pat` is
nonempty, so the fuel never runs out. -/
def removeAllFuel (pat : Chars) : Nat → Chars → Chars
  | 0, s => s
  | _ + 1, [] => []
  | fuel + 1, c :: cs =>
    if pat.isPrefixOf (c :: cs) then removeAllFuel pat fuel ((c :: cs).drop pat.length)
    else c :: removeAllFuel pat fuel cs

/-- `filename.replace('github.com/khicago/repoll/', '')`. -/
def removeModRoot (s : Chars) : Chars :=
  removeAllFuel modRoot s.length s

/-- Does `pat` occur as a contiguous run anywhere in the string? -/
def hasOcc (pat : Chars) : Chars → Bool
  | [] => pat.isPrefixOf []
  | c :: cs => pat.isPrefixOf (c :: cs) || hasOcc pat cs

/-- Outcome of the per-line parsing steps of `analyze_coverage`
(lines 19-38): silently skipped, a record for the aggregator, or an
uncaught `ValueError` from `int(parts[2])`. -/
inductive LineRes
  | skip
  | record (filename : Chars) (covered : Bool)
  | fatal
deriving DecidableEq

/-- Lines 20-38 of `coverage_analysis.py`, for one data line: strip;
skip if blank; split; skip if fewer than 3 tokens; parse token 2 as an
integer (fatal on failure — this happens BEFORE the colon check, as in
the source); skip if token 0 has no colon; otherwise build the record
with the module-root literal removed from the file identifier. -/
def processLine (line : Chars) : LineRes :=
  if pyStrip line = [] then .skip
  else if (pySplit (pyStrip line)).length < 3 then .skip
  else
    match pyInt? ((pySplit (pyStrip line)).getD 2 []) with
    | none => .fatal
    | some covered =>
      match beforeLastColon ((pySplit (pyStrip line)).getD 0 []) with
      | none => .skip
      | some fp => .record (removeModRoot fp) (decide (0 < covered))

/-- State of `analyze_coverage`'s accumulation: the `file_stats` dict
(entries in insertion order, each `(filename, (total, covered))`) and
the two global counters. -/
structure CovState where
  file_stats : List (Chars × Nat × Nat)
  total_statements : Nat
  covered_statements : Nat
deriving DecidableEq

def initState : CovState := ⟨[], 0, 0⟩

/-- Dict update of lines 40-47: create `{'total': 0, 'covered': 0}` on
first sight, then `total += 1` and, when covered, `covered += 1`. -/
def bumpStats (name : Chars) (cov : Bool) : List (Chars × Nat × Nat) → List (Chars × Nat × Nat)
  | [] => [(name, 1, if cov then 1 else 0)]
  | (m, t, c) :: rest =>
    if m = name then (m, t + 1, c + (if cov then 1 else 0)) :: rest
    else (m, t, c) :: bumpStats name cov rest

/-- Effect of one record on the accumulation state (lines 40-48). -/
def stepRecord (st : CovState) (name : Chars) (cov : Bool) : CovState :=
  ⟨bumpStats name cov st.file_stats,
   st.total_statements + 1,
   st.covered_statements + (if cov then 1 else 0)⟩

/-- The loop of lines 19-48 over the data lines, with the uncaught
`ValueError` propagated as `Except.error`. -/
def analyzeFrom (st : CovState) : List Chars → Except Unit CovState
  | [] => .ok st
  | l :: ls =>
    match processLine l with
    | .skip => analyzeFrom st ls
    | .fatal => .error ()
    | .record name cov => analyzeFrom (stepRecord st name cov) ls

/-- `analyze_coverage` on the lines of the input file: skip the header
line, then fold the data lines. -/
def analyze_coverage (lines : List Chars) : Except Unit CovState :=
  analyzeFrom initState (lines.drop 1)

/-- Line 51: `(covered / total * 100) if total > 0 else 0`, with the
float arithmetic modelled exactly over `ℚ`. -/
def overall_percent (st : CovState) : ℚ :=
  if 0 < st.total_statements then
    (st.covered_statements : ℚ) / (st.total_statements : ℚ) * 100
  else 0

/-- The final pass/fail message of both scripts. -/
inductive Verdict
  | pass
  | fail (current needed : ℚ)
deriving DecidableEq

/-- Lines 70-74 of `coverage_analysis.py` and 27-31 of
`simple_coverage_calc.py`: pass when the percentage is at least 97,
otherwise fail, reporting the percentage and `97.0 - percent`. -/
def verdict (percent : ℚ) : Verdict :=
  if 97 ≤ percent then .pass else .fail percent (97 - percent)

/-- The values computed by `simple_coverage_calc.py`. -/
structure SimpleResult where
  total_lines : Int
  covered_lines : Nat
  coverage_percent : ℚ
deriving DecidableEq

/-- The loop of lines 15-20 of `simple_coverage_calc.py`: for each data
line, if it has at least 3 tokens, parse token 2 (uncaught `ValueError`
on failure) and count it when positive. -/
def countCovered (acc : Nat) : List Chars → Except Unit Nat
  | [] => .ok acc
  | l :: ls =>
    if 3 ≤ (pySplit (pyStrip l)).length then
      match pyInt? ((pySplit (pyStrip l)).getD 2 []) with
      | none => .error ()
      | some c => countCovered (acc + if 0 < c then 1 else 0) ls
    else countCovered acc ls

/-- `simple_coverage_calc.py` on the lines of the input file:
`total_lines = len(lines) - 1`, the covered-line count, and the guarded
percentage of line 22. -/
def simple_coverage_calc (lines : List Chars) : Except Unit SimpleResult :=
  let total : Int := (lines.length : Int) - 1
  (countCovered 0 (lines.drop 1)).map (fun covered =>
    ⟨total, covered,
     if 0 < total then (covered : ℚ) / (total : ℚ) * 100 else 0⟩)

/-- First-match lookup in the `file_stats` association list; an absent
file reads as `(0, 0)`. -/
def statsOf (l : List (Chars × Nat × Nat)) (n : Chars) : Nat × Nat :=
  match l with
  | [] => (0, 0)
  | (m, t, c) :: rest => if m = n then (t, c) else statsOf rest n

/-- Observable outcome of an `analyze_coverage` run: `none` on abort,
otherwise the per-file mapping (as a lookup function) and the two
global counters. -/
def obs : Except Unit CovState → Option ((Chars → Nat × Nat) × Nat × Nat)
  | .error _ => none
  | .ok st => some (statsOf st.file_stats, st.total_statements, st.covered_statements)

/-- The record a line contributes, if any. -/
def recOf (l : Chars) : Option (Chars × Bool) :=
  match processLine l with
  | .record n c => some (n, c)
  | _ => none

/-- Folding a list of already-parsed records into the state. -/
def foldRecs (st : CovState) (rs : List (Chars × Bool)) : CovState :=
  rs.foldl (fun s r => stepRecord s r.1 r.2) st

example : pySplit ("pkg/a.go:1.1,2.2 1 1").toList =
    [("pkg/a.go:1.1,2.2").toList, ("1").toList, ("1").toList] := by decide

example : pyInt? ("-5").toList = some (-5) := by decide

example : pyInt? ("x").toList = none := by decide

example : beforeLastColon ("a.go:1.1,2.2").toList = some (("a.go").toList) := by decide

example : removeModRoot ("github.com/khicago/repoll/pkg/a.go").toList =
    ("pkg/a.go").toList := by decide

example : processLine ("pkg/a.go:1.1,2.2 1 1").toList =
    .record (("pkg/a.go").toList) true := by decide

/-! ## Basic facts about skipped and fatal lines -/

theorem processLine_skip_of_tolerated (m : Chars)
    (hm : pyStrip m = [] ∨ (pySplit (pyStrip m)).length < 3) :
    processLine m = .skip := by
  unfold processLine
  rcases hm with h | h
  · simp [h]
  · by_cases he : pyStrip m = []
    · simp [he]
    · simp [he, h]

theorem tolerated_short (m : Chars)
    (hm : pyStrip m = [] ∨ (pySplit (pyStrip m)).length < 3) :
    (pySplit (pyStrip m)).length < 3 := by
  rcases hm with h | h
  · rw [h]; decide
  · exact h

theorem analyzeFrom_skip_cons (m : Chars) (hm : processLine m = .skip)
    (st : CovState) (ls : List Chars) :
    analyzeFrom st (m :: ls) = analyzeFrom st ls := by
  simp [analyzeFrom, hm]

theorem analyzeFrom_insert_skip (m : Chars) (hm : processLine m = .skip) :
    ∀ (d1 : List Chars) (st : CovState) (d2 : List Chars),
      analyzeFrom st (d1 ++ m :: d2) = analyzeFrom st (d1 ++ d2)
  | [], st, d2 => by simpa using analyzeFrom_skip_cons m hm st d2
  | x :: rest, st, d2 => by
    simp only [List.cons_append, analyzeFrom]
    cases processLine x with
    | skip => exact analyzeFrom_insert_skip m hm rest st d2
    | fatal => rfl
    | record n c => exact analyzeFrom_insert_skip m hm rest (stepRecord st n c) d2

theorem countCovered_insert_skip (m : Chars)
    (hm : (pySplit (pyStrip m)).length < 3) :
    ∀ (d1 : List Chars) (acc : Nat) (d2 : List Chars),
      countCovered acc (d1 ++ m :: d2) = countCovered acc (d1 ++ d2)
  | [], acc, d2 => by
    simp only [List.nil_append, countCovered]
    rw [if_neg (by omega)]
  | x :: rest, acc, d2 => by
    simp only [List.cons_append, countCovered]
    by_cases hx : 3 ≤ (pySplit (pyStrip x)).length
    · rw [if_pos hx, if_pos hx]
      cases pyInt? ((pySplit (pyStrip x)).getD 2 []) with
      | none => rfl
      | some c => exact countCovered_insert_skip m hm rest _ d2
    · rw [if_neg hx, if_neg hx]
      exact countCovered_insert_skip m hm rest acc d2

/-- C1 (corrected): a tolerated malformed data line (blank after
stripping, or fewer than 3 tokens) contributes no record in either
entry point: `analyze_coverage` is completely unchanged by deleting it,
and so is the covered-line count of `simple_coverage_calc.py`.  But the
raw line count — which `simple_coverage_calc.py` reports as its
data-line total and uses as the percentage denominator — grows by one,
so in that entry point the reported total and percentage do change. -/
theorem C1_amended (h m : Chars) (d1 d2 : List Chars)
    (hm : pyStrip m = [] ∨ (pySplit (pyStrip m)).length < 3) :
    analyze_coverage (h :: (d1 ++ m :: d2)) = analyze_coverage (h :: (d1 ++ d2)) ∧
    countCovered 0 (d1 ++ m :: d2) = countCovered 0 (d1 ++ d2) ∧
    (h :: (d1 ++ m :: d2)).length = (h :: (d1 ++ d2)).length + 1 := by
  refine ⟨?_, ?_, by simp; omega⟩
  · show analyzeFrom initState ((h :: (d1 ++ m :: d2)).drop 1) =
      analyzeFrom initState ((h :: (d1 ++ d2)).drop 1)
    simpa using analyzeFrom_insert_skip m
      (processLine_skip_of_tolerated m hm) d1 initState d2
  · exact countCovered_insert_skip m (tolerated_short m hm) d1 0 d2

/-- C1 witness: inserting a blank data line changes nothing observable
in `analyze_coverage` and nothing in the covered-line count. -/
theorem C1_witness :
    analyze_coverage [("mode: set").toList, ("a.go:1.1,2.2 1 1").toList, ("\n").toList] =
      analyze_coverage [("mode: set").toList, ("a.go:1.1,2.2 1 1").toList] ∧
    countCovered 0 [("a.go:1.1,2.2 1 1").toList, ("\n").toList] =
      countCovered 0 [("a.go:1.1,2.2 1 1").toList] := by
  have h := C1_amended (("mode: set").toList) (("\n").toList)
    [("a.go:1.1,2.2 1 1").toList] [] (Or.inl (by decide))
  exact ⟨h.1, h.2.1⟩

/-- C1 counterexample: in `simple_coverage_calc.py` a blank data line
is counted in `total_lines` and in the percentage denominator, so the
reported total (2 vs 1) and percentage (50 vs 100) are not what they
would be with the line absent. -/
theorem C1_counterexample :
    (simple_coverage_calc
        [("mode: set").toList, ("a.go:1.1,2.2 1 1").toList, ("\n").toList]).map
        SimpleResult.total_lines = .ok 2 ∧
    (simple_coverage_calc
        [("mode: set").toList, ("a.go:1.1,2.2 1 1").toList]).map
        SimpleResult.total_lines = .ok 1 ∧
    (2 : Int) ≠ 1 ∧
    (simple_coverage_calc
        [("mode: set").toList, ("a.go:1.1,2.2 1 1").toList, ("\n").toList]).map
        SimpleResult.coverage_percent ≠
      (simple_coverage_calc
        [("mode: set").toList, ("a.go:1.1,2.2 1 1").toList]).map
        SimpleResult.coverage_percent := by
  refine ⟨rfl, rfl, by decide, ?_⟩
  show Except.ok ((1 : ℚ) / 2 * 100) ≠ Except.ok ((1 : ℚ) / 1 * 100)
  intro h
  have h' := Except.ok.inj h
  norm_num at h'

/-! ## Claim C3: lines whose first token has no colon -/

/-- C3 (corrected): a data line whose first token has no colon is
silently skipped — provided the line survives the integer parse that
the code performs FIRST.  Whenever the line is blank, has fewer than 3
tokens, or has 3 or more tokens whose token 2 parses as an integer, a
colon-free first token yields no record and the line has no effect on
the run; the original claim's clause "even when token index 2 is not a
valid integer" does not hold (see the counterexample). -/
theorem C3_amended (l : Chars) (n : Int)
    (hcolon : beforeLastColon ((pySplit (pyStrip l)).getD 0 []) = none)
    (hint : 3 ≤ (pySplit (pyStrip l)).length →
      pyInt? ((pySplit (pyStrip l)).getD 2 []) = some n) :
    processLine l = .skip ∧
    ∀ (st : CovState) (ls : List Chars),
      analyzeFrom st (l :: ls) = analyzeFrom st ls := by
  have hskip : processLine l = .skip := by
    unfold processLine
    by_cases h0 : pyStrip l = []
    · simp [h0]
    · by_cases h3 : (pySplit (pyStrip l)).length < 3
      · simp [h0, h3]
      · rw [if_neg h0, if_neg h3, hint (by omega), hcolon]
  exact ⟨hskip, fun st ls => analyzeFrom_skip_cons l hskip st ls⟩

/-- C3 witness: `abc 1 5` (no colon, valid count) is skipped. -/
theorem C3_witness : processLine (("abc 1 5").toList) = LineRes.skip :=
  (C3_amended (("abc 1 5").toList) 5 (by decide) (by decide)).1

/-- C3 counterexample: `abc 1 x` has a colon-free first token, yet it
is not silently skipped — the integer parse of token 2 happens before
the colon check (line 30 versus line 33 of `coverage_analysis.py`),
so the run aborts. -/
theorem C3_counterexample :
    processLine (("abc 1 x").toList) = LineRes.fatal ∧
    analyze_coverage [("mode: set").toList, ("abc 1 x").toList] = .error () :=
  ⟨by decide, rfl⟩

/-! ## Claim C4: a malformed count aborts both entry points -/

theorem processLine_fatal (l : Chars)
    (h3 : 3 ≤ (pySplit (pyStrip l)).length)
    (hbad : pyInt? ((pySplit (pyStrip l)).getD 2 []) = none) :
    processLine l = .fatal := by
  have h0 : pyStrip l ≠ [] := by
    intro he
    rw [he] at h3
    exact absurd h3 (by decide)
  unfold processLine
  rw [if_neg h0, if_neg (by omega), hbad]

theorem analyzeFrom_contains_fatal (l : Chars) (hl : processLine l = .fatal) :
    ∀ (d1 : List Chars) (st : CovState) (d2 : List Chars),
      analyzeFrom st (d1 ++ l :: d2) = .error ()
  | [], st, d2 => by simp [analyzeFrom, hl]
  | x :: rest, st, d2 => by
    simp only [List.cons_append, analyzeFrom]
    cases processLine x with
    | skip => exact analyzeFrom_contains_fatal l hl rest st d2
    | fatal => rfl
    | record n c => exact analyzeFrom_contains_fatal l hl rest (stepRecord st n c) d2

theorem countCovered_contains_fatal (l : Chars)
    (h3 : 3 ≤ (pySplit (pyStrip l)).length)
    (hbad : pyInt? ((pySplit (pyStrip l)).getD 2 []) = none) :
    ∀ (d1 : List Chars) (acc : Nat) (d2 : List Chars),
      countCovered acc (d1 ++ l :: d2) = .error ()
  | [], acc, d2 => by
    simp only [List.nil_append, countCovered]
    rw [if_pos h3, hbad]
  | x :: rest, acc, d2 => by
    simp only [List.cons_append, countCovered]
    by_cases hx : 3 ≤ (pySplit (pyStrip x)).length
    · rw [if_pos hx]
      cases pyInt? ((pySplit (pyStrip x)).getD 2 []) with
      | none => rfl
      | some c => exact countCovered_contains_fatal l h3 hbad rest _ d2
    · rw [if_neg hx]
      exact countCovered_contains_fatal l h3 hbad rest acc d2

/-- C4 (confirmed): an input containing a data line with at least 3
tokens whose token 2 does not parse as an integer makes both entry
points abort (the uncaught `ValueError` modelled as `Except.error`),
whatever the surrounding lines are. -/
theorem C4_thm (hd l : Chars) (d1 d2 : List Chars)
    (h3 : 3 ≤ (pySplit (pyStrip l)).length)
    (hbad : pyInt? ((pySplit (pyStrip l)).getD 2 []) = none) :
    analyze_coverage (hd :: (d1 ++ l :: d2)) = .error () ∧
    simple_coverage_calc (hd :: (d1 ++ l :: d2)) = .error () := by
  constructor
  · show analyzeFrom initState ((hd :: (d1 ++ l :: d2)).drop 1) = .error ()
    simpa using analyzeFrom_contains_fatal l (processLine_fatal l h3 hbad) d1 initState d2
  · show (countCovered 0 ((hd :: (d1 ++ l :: d2)).drop 1)).map _ = .error ()
    have h := countCovered_contains_fatal l h3 hbad d1 0 d2
    simp only [List.drop_succ_cons, List.drop_zero, h]
    rfl

/-- C4 witness: the line `a.go:3.1,4.2 1 x` aborts both entry points,
even when preceded by a well-formed data line. -/
theorem C4_witness :
    analyze_coverage [("mode: set").toList, ("a.go:1.1,2.2 1 1").toList,
        ("a.go:3.1,4.2 1 x").toList] = .error () ∧
    simple_coverage_calc [("mode: set").toList, ("a.go:1.1,2.2 1 1").toList,
        ("a.go:3.1,4.2 1 x").toList] = .error () :=
  C4_thm (("mode: set").toList) (("a.go:3.1,4.2 1 x").toList)
    [("a.go:1.1,2.2 1 1").toList] [] (by decide) (by decide)

/-! ## Claim C2: the module-root removal -/

theorem removeAllFuel_irrel (pat : Chars) (hp : pat ≠ []) :
    ∀ (fuel : Nat) (s : Chars) (fuel' : Nat), s.length ≤ fuel → s.length ≤ fuel' →
      removeAllFuel pat fuel s = removeAllFuel pat fuel' s := by
  have hl : 1 ≤ pat.length := by
    cases pat with
    | nil => exact absurd rfl hp
    | cons a as => simp
  intro fuel
  induction fuel with
  | zero =>
    intro s fuel' h1 _
    have hs : s = [] := List.length_eq_zero.mp (Nat.le_zero.mp h1)
    subst hs
    cases fuel' <;> rfl
  | succ f ih =>
    intro s fuel' h1 h2
    cases s with
    | nil => cases fuel' <;> rfl
    | cons c cs =>
      cases fuel' with
      | zero => simp at h2
      | succ f' =>
        simp only [removeAllFuel]
        by_cases hpre : pat.isPrefixOf (c :: cs)
        · rw [if_pos hpre, if_pos hpre]
          apply ih
          · simp only [List.length_drop, List.length_cons]
            simp only [List.length_cons] at h1
            omega
          · simp only [List.length_drop, List.length_cons]
            simp only [List.length_cons] at h2
            omega
        · rw [if_neg hpre, if_neg hpre]
          have e := ih cs f' (by simp only [List.length_cons] at h1; omega)
            (by simp only [List.length_cons] at h2; omega)
          rw [e]

theorem removeAllFuel_of_no_occ (pat : Chars) :
    ∀ (fuel : Nat) (s : Chars), hasOcc pat s = false → removeAllFuel pat fuel s = s := by
  intro fuel
  induction fuel with
  | zero => intro s _; rfl
  | succ f ih =>
    intro s h
    cases s with
    | nil => rfl
    | cons c cs =>
      rw [hasOcc] at h
      have h2 := Bool.or_eq_false_iff.mp h
      simp only [removeAllFuel]
      rw [if_neg (by simp [h2.1]), ih cs h2.2]

theorem removeAllFuel_step_prefix (a : Char) (as : Chars) (fuel : Nat) (s : Chars) :
    removeAllFuel (a :: as) (fuel + 1) ((a :: as) ++ s) = removeAllFuel (a :: as) fuel s := by
  have hpre : (a :: as).isPrefixOf ((a :: as) ++ s) = true := by
    rw [List.isPrefixOf_iff_prefix]
    exact List.prefix_append _ _
  have hdrop : ((a :: as) ++ s).drop (a :: as).length = s := List.drop_left _ _
  calc removeAllFuel (a :: as) (fuel + 1) ((a :: as) ++ s)
      = if (a :: as).isPrefixOf ((a :: as) ++ s) = true then
          removeAllFuel (a :: as) fuel (((a :: as) ++ s).drop (a :: as).length)
        else a :: removeAllFuel (a :: as) fuel (as ++ s) := rfl
    _ = removeAllFuel (a :: as) fuel s := by rw [if_pos hpre, hdrop]

theorem removeModRoot_of_no_occ (s : Chars) (h : hasOcc modRoot s = false) :
    removeModRoot s = s :=
  removeAllFuel_of_no_occ modRoot s.length s h

theorem removeModRoot_strips_front (s : Chars) :
    removeModRoot (modRoot ++ s) = removeModRoot s := by
  unfold removeModRoot
  cases hM : modRoot with
  | nil => exact absurd hM (by decide)
  | cons a as =>
    have hlen : ((a :: as) ++ s).length = (as.length + s.length) + 1 := by
      simp only [List.length_append, List.length_cons]
      omega
    rw [hlen, removeAllFuel_step_prefix a as (as.length + s.length) s]
    exact removeAllFuel_irrel (a :: as) (by simp) (as.length + s.length) s s.length
      (by omega) (by omega)

/-- C2 (corrected): the stripping step of line 38 is Python
`str.replace`, which removes EVERY occurrence of the module-root
literal, not only one at the start.  What does hold: an identifier in
which the literal does not occur at all is unchanged, and an
occurrence at the start is removed. -/
theorem C2_amended :
    (∀ s : Chars, hasOcc modRoot s = false → removeModRoot s = s) ∧
    (∀ s : Chars, removeModRoot (modRoot ++ s) = removeModRoot s) :=
  ⟨removeModRoot_of_no_occ, removeModRoot_strips_front⟩

/-- C2 witness: an already-relative identifier is left unchanged. -/
theorem C2_witness :
    hasOcc modRoot (("pkg/a.go").toList) = false ∧
    removeModRoot (("pkg/a.go").toList) = ("pkg/a.go").toList :=
  ⟨by decide, C2_amended.1 (("pkg/a.go").toList) (by decide)⟩

/-- C2 counterexample: in `x/github.com/khicago/repoll/y` the literal
does not occur at the start (`isPrefixOf` is false), yet the stripping
step still rewrites the identifier to `x/y`, contradicting the claim
that such an identifier is left unchanged. -/
theorem C2_counterexample :
    modRoot.isPrefixOf (("x/github.com/khicago/repoll/y").toList) = false ∧
    removeModRoot (("x/github.com/khicago/repoll/y").toList) = ("x/y").toList ∧
    ("x/y").toList ≠ ("x/github.com/khicago/repoll/y").toList :=
  ⟨by decide, by decide, by decide⟩

/-! ## Characterising a run by its record list -/

theorem analyzeFrom_of_no_fatal :
    ∀ (ls : List Chars) (st : CovState), (∀ l ∈ ls, processLine l ≠ .fatal) →
      analyzeFrom st ls = .ok (foldRecs st (ls.filterMap recOf))
  | [], _, _ => rfl
  | x :: rest, st, h => by
    have hrest : ∀ l ∈ rest, processLine l ≠ .fatal :=
      fun l hl => h l (List.mem_cons_of_mem x hl)
    cases hpx : processLine x with
    | skip =>
      rw [show analyzeFrom st (x :: rest) = analyzeFrom st rest by
            simp [analyzeFrom, hpx],
          show (x :: rest).filterMap recOf = rest.filterMap recOf by
            simp [List.filterMap_cons, recOf, hpx]]
      exact analyzeFrom_of_no_fatal rest st hrest
    | fatal => exact absurd hpx (h x (List.mem_cons_self x rest))
    | record n c =>
      rw [show analyzeFrom st (x :: rest) = analyzeFrom (stepRecord st n c) rest by
            simp [analyzeFrom, hpx],
          show (x :: rest).filterMap recOf = (n, c) :: rest.filterMap recOf by
            simp [List.filterMap_cons, recOf, hpx]]
      exact analyzeFrom_of_no_fatal rest (stepRecord st n c) hrest

theorem analyzeFrom_of_fatal :
    ∀ (ls : List Chars) (st : CovState), (∃ l ∈ ls, processLine l = .fatal) →
      analyzeFrom st ls = .error ()
  | [], _, h => absurd h (by simp)
  | x :: rest, st, h => by
    cases hpx : processLine x with
    | fatal => simp [analyzeFrom, hpx]
    | skip =>
      have hrest : ∃ l ∈ rest, processLine l = .fatal := by
        rcases h with ⟨l, hl, hf⟩
        rcases List.mem_cons.mp hl with rfl | hl'
        · rw [hpx] at hf; simp at hf
        · exact ⟨l, hl', hf⟩
      rw [show analyzeFrom st (x :: rest) = analyzeFrom st rest by simp [analyzeFrom, hpx]]
      exact analyzeFrom_of_fatal rest st hrest
    | record n c =>
      have hrest : ∃ l ∈ rest, processLine l = .fatal := by
        rcases h with ⟨l, hl, hf⟩
        rcases List.mem_cons.mp hl with rfl | hl'
        · rw [hpx] at hf; simp at hf
        · exact ⟨l, hl', hf⟩
      rw [show analyzeFrom st (x :: rest) = analyzeFrom (stepRecord st n c) rest by
            simp [analyzeFrom, hpx]]
      exact analyzeFrom_of_fatal rest (stepRecord st n c) hrest

theorem statsOf_bump (name : Chars) (cov : Bool) :
    ∀ (l : List (Chars × Nat × Nat)) (n : Chars),
      statsOf (bumpStats name cov l) n =
        if n = name then
          ((statsOf l n).1 + 1, (statsOf l n).2 + (if cov then 1 else 0))
        else statsOf l n
  | [], n => by
    simp only [bumpStats, statsOf]
    by_cases h : n = name
    · subst h; simp
    · rw [if_neg (fun he => h he.symm), if_neg h]
  | (m, t, c) :: rest, n => by
    simp only [bumpStats]
    by_cases hm : m = name
    · rw [if_pos hm]
      simp only [statsOf]
      by_cases hn : m = n
      · have hnn : n = name := by rw [← hn]; exact hm
        simp [hn, hnn]
      · have hnn : ¬ (n = name) := fun he => hn (by rw [hm, he])
        simp [hn, hnn]
    · rw [if_neg hm]
      simp only [statsOf]
      by_cases hn : m = n
      · have hnn : ¬ (n = name) := fun he => hm (by rw [hn, he])
        simp [hn, hnn]
      · simp only [if_neg hn]
        exact statsOf_bump name cov rest n

theorem foldRecs_total :
    ∀ (rs : List (Chars × Bool)) (st : CovState),
      (foldRecs st rs).total_statements = st.total_statements + rs.length
  | [], st => by simp [foldRecs]
  | r :: rest, st => by
    show (foldRecs (stepRecord st r.1 r.2) rest).total_statements = _
    rw [foldRecs_total rest (stepRecord st r.1 r.2)]
    simp only [stepRecord, List.length_cons]
    omega

theorem foldRecs_covered :
    ∀ (rs : List (Chars × Bool)) (st : CovState),
      (foldRecs st rs).covered_statements =
        st.covered_statements + rs.countP (fun r => r.2)
  | [], st => by simp [foldRecs]
  | r :: rest, st => by
    show (foldRecs (stepRecord st r.1 r.2) rest).covered_statements = _
    rw [foldRecs_covered rest (stepRecord st r.1 r.2), List.countP_cons]
    simp only [stepRecord]
    cases hr : r.2 <;> (simp [hr]; try omega)

theorem foldRecs_statsOf_fst :
    ∀ (rs : List (Chars × Bool)) (st : CovState) (n : Chars),
      (statsOf (foldRecs st rs).file_stats n).1 =
        (statsOf st.file_stats n).1 + rs.countP (fun r => decide (r.1 = n))
  | [], st, n => by simp [foldRecs]
  | r :: rest, st, n => by
    show (statsOf (foldRecs (stepRecord st r.1 r.2) rest).file_stats n).1 = _
    rw [foldRecs_statsOf_fst rest (stepRecord st r.1 r.2) n, List.countP_cons]
    simp only [stepRecord]
    rw [statsOf_bump]
    by_cases h : r.1 = n
    · rw [if_pos h.symm]
      simp [h]
      omega
    · rw [if_neg (fun he => h he.symm)]
      simp [h]

theorem foldRecs_statsOf_snd :
    ∀ (rs : List (Chars × Bool)) (st : CovState) (n : Chars),
      (statsOf (foldRecs st rs).file_stats n).2 =
        (statsOf st.file_stats n).2 + rs.countP (fun r => decide (r.1 = n) && r.2)
  | [], st, n => by simp [foldRecs]
  | r :: rest, st, n => by
    show (statsOf (foldRecs (stepRecord st r.1 r.2) rest).file_stats n).2 = _
    rw [foldRecs_statsOf_snd rest (stepRecord st r.1 r.2) n, List.countP_cons]
    simp only [stepRecord]
    rw [statsOf_bump]
    by_cases h : r.1 = n
    · rw [if_pos h.symm]
      cases hr : r.2 <;> (simp [h, hr]; try omega)
    · rw [if_neg (fun he => h he.symm)]
      simp [h]

/-- C5 (confirmed): permuting the data lines (keeping the header first)
yields the same observable outcome of `analyze_coverage`: an abort
permutes to an abort, and a successful run yields the identical
file-name → (total, covered) mapping and identical global totals. -/
theorem C5_thm (h : Chars) (d d' : List Chars) (hp : d.Perm d') :
    obs (analyze_coverage (h :: d)) = obs (analyze_coverage (h :: d')) := by
  show obs (analyzeFrom initState d) = obs (analyzeFrom initState d')
  by_cases hf : ∃ l ∈ d, processLine l = .fatal
  · have hf' : ∃ l ∈ d', processLine l = .fatal := by
      rcases hf with ⟨l, hl, he⟩
      exact ⟨l, hp.mem_iff.mp hl, he⟩
    rw [analyzeFrom_of_fatal d initState hf, analyzeFrom_of_fatal d' initState hf']
  · have hf' : ¬ ∃ l ∈ d', processLine l = .fatal := by
      rintro ⟨l, hl, he⟩
      exact hf ⟨l, hp.mem_iff.mpr hl, he⟩
    have hnf : ∀ l ∈ d, processLine l ≠ .fatal := fun l hl he => hf ⟨l, hl, he⟩
    have hnf' : ∀ l ∈ d', processLine l ≠ .fatal := fun l hl he => hf' ⟨l, hl, he⟩
    rw [analyzeFrom_of_no_fatal d initState hnf, analyzeFrom_of_no_fatal d' initState hnf']
    have hrs : (d.filterMap recOf).Perm (d'.filterMap recOf) := hp.filterMap recOf
    have hpair : ∀ (p q : Nat × Nat), p.1 = q.1 → p.2 = q.2 → p = q := by
      rintro ⟨a, b⟩ ⟨c, e⟩ h1 h2
      simp_all
    have h1 : statsOf (foldRecs initState (d.filterMap recOf)).file_stats =
        statsOf (foldRecs initState (d'.filterMap recOf)).file_stats := by
      funext n
      apply hpair
      · rw [foldRecs_statsOf_fst, foldRecs_statsOf_fst, hrs.countP_eq]
      · rw [foldRecs_statsOf_snd, foldRecs_statsOf_snd, hrs.countP_eq]
    have h2 : (foldRecs initState (d.filterMap recOf)).total_statements =
        (foldRecs initState (d'.filterMap recOf)).total_statements := by
      rw [foldRecs_total, foldRecs_total, hrs.length_eq]
    have h3 : (foldRecs initState (d.filterMap recOf)).covered_statements =
        (foldRecs initState (d'.filterMap recOf)).covered_statements := by
      rw [foldRecs_covered, foldRecs_covered, hrs.countP_eq]
    simp only [obs]
    rw [h1, h2, h3]

/-- C5 witness: swapping two data lines for different files gives the
same observable result. -/
theorem C5_witness :
    obs (analyze_coverage [("mode: set").toList, ("pkg/a.go:1.1,2.2 1 1").toList,
        ("pkg/b.go:1.1,2.2 1 0").toList]) =
      obs (analyze_coverage [("mode: set").toList, ("pkg/b.go:1.1,2.2 1 0").toList,
        ("pkg/a.go:1.1,2.2 1 1").toList]) :=
  C5_thm (("mode: set").toList)
    [("pkg/a.go:1.1,2.2 1 1").toList, ("pkg/b.go:1.1,2.2 1 0").toList]
    [("pkg/b.go:1.1,2.2 1 0").toList, ("pkg/a.go:1.1,2.2 1 1").toList]
    (by decide)

/-! ## Claim C6: global totals are the sums over the per-file entries -/

theorem bumpStats_sum_total (name : Chars) (cov : Bool) :
    ∀ l : List (Chars × Nat × Nat),
      ((bumpStats name cov l).map (fun e => e.2.1)).sum =
        (l.map (fun e => e.2.1)).sum + 1
  | [] => by simp [bumpStats]
  | (m, t, c) :: rest => by
    simp only [bumpStats]
    by_cases h : m = name
    · rw [if_pos h]
      simp only [List.map_cons, List.sum_cons]
      omega
    · rw [if_neg h]
      simp only [List.map_cons, List.sum_cons, bumpStats_sum_total name cov rest]
      omega

theorem bumpStats_sum_covered (name : Chars) (cov : Bool) :
    ∀ l : List (Chars × Nat × Nat),
      ((bumpStats name cov l).map (fun e => e.2.2)).sum =
        (l.map (fun e => e.2.2)).sum + (if cov then 1 else 0)
  | [] => by simp [bumpStats]
  | (m, t, c) :: rest => by
    simp only [bumpStats]
    by_cases h : m = name
    · rw [if_pos h]
      simp only [List.map_cons, List.sum_cons]
      omega
    · rw [if_neg h]
      simp only [List.map_cons, List.sum_cons, bumpStats_sum_covered name cov rest]
      omega

theorem foldRecs_sum_total :
    ∀ (rs : List (Chars × Bool)) (st : CovState),
      ((foldRecs st rs).file_stats.map (fun e => e.2.1)).sum =
        (st.file_stats.map (fun e => e.2.1)).sum + rs.length
  | [], st => by simp [foldRecs]
  | r :: rest, st => by
    show ((foldRecs (stepRecord st r.1 r.2) rest).file_stats.map _).sum = _
    rw [foldRecs_sum_total rest (stepRecord st r.1 r.2)]
    simp only [stepRecord, List.length_cons]
    rw [bumpStats_sum_total]
    omega

theorem foldRecs_sum_covered :
    ∀ (rs : List (Chars × Bool)) (st : CovState),
      ((foldRecs st rs).file_stats.map (fun e => e.2.2)).sum =
        (st.file_stats.map (fun e => e.2.2)).sum + rs.countP (fun r => r.2)
  | [], st => by simp [foldRecs]
  | r :: rest, st => by
    show ((foldRecs (stepRecord st r.1 r.2) rest).file_stats.map _).sum = _
    rw [foldRecs_sum_covered rest (stepRecord st r.1 r.2), List.countP_cons]
    simp only [stepRecord]
    rw [bumpStats_sum_covered]
    cases hr : r.2 <;> (simp [hr]; try omega)

/-- C6 (confirmed): after any successful run, the global
`total_statements` is the sum of the per-file totals, and the global
`covered_statements` is the sum of the per-file covered counts. -/
theorem C6_thm (lines : List Chars) (st : CovState)
    (h : analyze_coverage lines = .ok st) :
    (st.file_stats.map (fun e => e.2.1)).sum = st.total_statements ∧
    (st.file_stats.map (fun e => e.2.2)).sum = st.covered_statements := by
  by_cases hf : ∃ l ∈ lines.drop 1, processLine l = .fatal
  · rw [analyze_coverage, analyzeFrom_of_fatal _ _ hf] at h
    exact Except.noConfusion h
  · have hnf : ∀ l ∈ lines.drop 1, processLine l ≠ .fatal := fun l hl he => hf ⟨l, hl, he⟩
    rw [analyze_coverage, analyzeFrom_of_no_fatal _ _ hnf] at h
    have hst : st = foldRecs initState ((lines.drop 1).filterMap recOf) :=
      (Except.ok.inj h).symm
    subst hst
    refine ⟨?_, ?_⟩
    · rw [foldRecs_sum_total, foldRecs_total]
      simp [initState]
    · rw [foldRecs_sum_covered, foldRecs_covered]
      simp [initState]

/-- C6 witness: two records for one file give per-file sums 2 and 1,
matching the global counters. -/
theorem C6_witness :
    ((CovState.mk [((("pkg/a.go").toList), 2, 1)] 2 1).file_stats.map
      (fun e => e.2.1)).sum =
      (CovState.mk [((("pkg/a.go").toList), 2, 1)] 2 1).total_statements ∧
    ((CovState.mk [((("pkg/a.go").toList), 2, 1)] 2 1).file_stats.map
      (fun e => e.2.2)).sum =
      (CovState.mk [((("pkg/a.go").toList), 2, 1)] 2 1).covered_statements :=
  C6_thm [("mode: set").toList, ("pkg/a.go:1.1,2.2 1 1").toList,
    ("pkg/a.go:3.1,4.2 1 0").toList]
    (CovState.mk [((("pkg/a.go").toList), 2, 1)] 2 1) rfl

/-! ## Claim C7: covered never exceeds total -/

theorem bumpStats_entries_le (name : Chars) (cov : Bool) :
    ∀ l : List (Chars × Nat × Nat), (∀ e ∈ l, e.2.2 ≤ e.2.1) →
      ∀ e ∈ bumpStats name cov l, e.2.2 ≤ e.2.1
  | [], _, e, he => by
    simp only [bumpStats, List.mem_singleton] at he
    subst he
    cases cov <;> simp
  | (m, t, c) :: rest, h, e, he => by
    simp only [bumpStats] at he
    by_cases hm : m = name
    · rw [if_pos hm] at he
      rcases List.mem_cons.mp he with rfl | hr
      · have hc := h (m, t, c) (List.mem_cons_self _ _)
        simp only at hc ⊢
        cases cov <;> (simp; omega)
      · exact h e (List.mem_cons_of_mem _ hr)
    · rw [if_neg hm] at he
      rcases List.mem_cons.mp he with rfl | hr
      · exact h (m, t, c) (List.mem_cons_self _ _)
      · exact bumpStats_entries_le name cov rest
          (fun e' he' => h e' (List.mem_cons_of_mem _ he')) e hr

theorem foldRecs_le :
    ∀ (rs : List (Chars × Bool)) (st : CovState),
      st.covered_statements ≤ st.total_statements →
      (∀ e ∈ st.file_stats, e.2.2 ≤ e.2.1) →
      (foldRecs st rs).covered_statements ≤ (foldRecs st rs).total_statements ∧
      ∀ e ∈ (foldRecs st rs).file_stats, e.2.2 ≤ e.2.1
  | [], _, h1, h2 => ⟨h1, h2⟩
  | r :: rest, st, h1, h2 =>
    foldRecs_le rest (stepRecord st r.1 r.2)
      (by simp only [stepRecord]; cases r.2 <;> (simp; omega))
      (bumpStats_entries_le r.1 r.2 st.file_stats h2)

/-- C7 (confirmed): at every point of the aggregation — `ls` ranges
over all prefixes of the data lines, so every intermediate state of a
run is the final state of some such `ls` — the global counters satisfy
covered ≤ total, and so does every entry of the per-file table. -/
theorem C7_thm (ls : List Chars) (st : CovState)
    (h : analyzeFrom initState ls = .ok st) :
    st.covered_statements ≤ st.total_statements ∧
    st.file_stats.all (fun e => decide (e.2.2 ≤ e.2.1)) = true := by
  by_cases hf : ∃ l ∈ ls, processLine l = .fatal
  · rw [analyzeFrom_of_fatal _ _ hf] at h
    exact Except.noConfusion h
  · have hnf : ∀ l ∈ ls, processLine l ≠ .fatal := fun l hl he => hf ⟨l, hl, he⟩
    rw [analyzeFrom_of_no_fatal _ _ hnf] at h
    have hst : st = foldRecs initState (ls.filterMap recOf) := (Except.ok.inj h).symm
    subst hst
    have hle := foldRecs_le (ls.filterMap recOf) initState
      (by simp [initState]) (by simp [initState])
    refine ⟨hle.1, ?_⟩
    rw [List.all_eq_true]
    intro e he
    simpa using hle.2 e he

/-- C7 witness: the invariant at the state reached after two records
for one file. -/
theorem C7_witness :
    (CovState.mk [((("pkg/a.go").toList), 2, 1)] 2 1).covered_statements ≤
      (CovState.mk [((("pkg/a.go").toList), 2, 1)] 2 1).total_statements ∧
    (CovState.mk [((("pkg/a.go").toList), 2, 1)] 2 1).file_stats.all
      (fun e => decide (e.2.2 ≤ e.2.1)) = true :=
  C7_thm [("pkg/a.go:1.1,2.2 1 1").toList, ("pkg/a.go:3.1,4.2 1 0").toList]
    (CovState.mk [((("pkg/a.go").toList), 2, 1)] 2 1) rfl

/-! ## Claim C8: header-only input -/

/-- C8 (confirmed): whatever the header line contains, a file with no
data lines gives 0/0 totals and a percentage of 0 in both entry
points; the guarded percentage expressions make this a value, not an
arithmetic fault. -/
theorem C8_thm (h : Chars) :
    analyze_coverage [h] = .ok initState ∧
    initState.total_statements = 0 ∧
    initState.covered_statements = 0 ∧
    overall_percent initState = 0 ∧
    simple_coverage_calc [h] = .ok ⟨0, 0, 0⟩ :=
  ⟨rfl, rfl, rfl, rfl, rfl⟩

/-! ## Claim C9: the 97% threshold verdict -/

/-- C9 (confirmed): the verdict applied to a computed percentage is the
pass message exactly when the percentage is at least 97 — so exactly 97
passes — and otherwise the fail message carrying the percentage and the
shortfall `97 - percent`.  The scripts' float arithmetic is modelled
exactly over `ℚ`. -/
theorem C9_thm (p : ℚ) :
    (verdict p = Verdict.pass ↔ 97 ≤ p) ∧
    (¬ 97 ≤ p → verdict p = Verdict.fail p (97 - p)) := by
  unfold verdict
  by_cases h : 97 ≤ p
  · rw [if_pos h]
    exact ⟨⟨fun _ => h, fun _ => rfl⟩, fun hn => absurd h hn⟩
  · rw [if_neg h]
    exact ⟨⟨fun he => Verdict.noConfusion he, fun hc => absurd hc h⟩, fun _ => rfl⟩

/-- C9 witness: 97 itself passes; 96 fails with shortfall `97 - 96`. -/
theorem C9_witness :
    verdict 97 = Verdict.pass ∧ verdict 96 = Verdict.fail 96 (97 - 96) :=
  ⟨(C9_thm 97).1.mpr (by decide), (C9_thm 96).2 (by decide)⟩

/-- The spec's boundary example `96.99`: the shortfall is `0.01`. -/
theorem verdict_boundary_96_99 :
    verdict (9699 / 100) = Verdict.fail (9699 / 100) (1 / 100) := by
  unfold verdict
  rw [if_neg (by norm_num)]
  congr 1
  norm_num

/-- The spec's boundary example at exactly 97%: 97 covered out of 100
gives percentage 97, which passes. -/
theorem overall_percent_exact_97 :
    overall_percent ⟨[], 100, 97⟩ = 97 ∧
    verdict (overall_percent ⟨[], 100, 97⟩) = Verdict.pass := by
  have h : overall_percent ⟨[], 100, 97⟩ = 97 := by
    unfold overall_percent
    norm_num
  refine ⟨h, ?_⟩
  rw [h]
  unfold verdict
  rw [if_pos (le_refl _)]

/-! ## Claim C10: negative coverage counts -/

/-- C10 (corrected): a data line with at least 3 tokens whose token 2
parses as a NEGATIVE integer is accepted without error by both entry
points.  Provided its first token contains a colon (the condition the
original claim omits), it yields a record that is "not covered": the
file's and the global total grow by 1 while every covered counter is
unchanged.  In `simple_coverage_calc.py` it adds nothing to the
covered count. -/
theorem C10_amended (l : Chars) (n : Int) (fp : Chars)
    (h3 : 3 ≤ (pySplit (pyStrip l)).length)
    (hn : pyInt? ((pySplit (pyStrip l)).getD 2 []) = some n)
    (hneg : n < 0)
    (hfp : beforeLastColon ((pySplit (pyStrip l)).getD 0 []) = some fp) :
    processLine l = .record (removeModRoot fp) false ∧
    (∀ (st : CovState) (ls : List Chars),
      analyzeFrom st (l :: ls) = analyzeFrom (stepRecord st (removeModRoot fp) false) ls) ∧
    (∀ (st : CovState) (name : Chars),
      (stepRecord st name false).total_statements = st.total_statements + 1 ∧
      (stepRecord st name false).covered_statements = st.covered_statements ∧
      (statsOf (stepRecord st name false).file_stats name).1 =
        (statsOf st.file_stats name).1 + 1 ∧
      (statsOf (stepRecord st name false).file_stats name).2 =
        (statsOf st.file_stats name).2) ∧
    (∀ (acc : Nat) (ls : List Chars), countCovered acc (l :: ls) = countCovered acc ls) := by
  have h0 : pyStrip l ≠ [] := by
    intro he
    rw [he] at h3
    exact absurd h3 (by decide)
  have hnpos : ¬ (0 < n) := by omega
  have hrec : processLine l = .record (removeModRoot fp) false := by
    unfold processLine
    rw [if_neg h0, if_neg (by omega), hn, hfp]
    simp [hnpos]
  refine ⟨hrec, ?_, ?_, ?_⟩
  · intro st ls
    simp [analyzeFrom, hrec]
  · intro st name
    refine ⟨rfl, by simp [stepRecord], ?_, ?_⟩
    · rw [show (stepRecord st name false).file_stats =
          bumpStats name false st.file_stats from rfl, statsOf_bump]
      simp
    · rw [show (stepRecord st name false).file_stats =
          bumpStats name false st.file_stats from rfl, statsOf_bump]
      simp
  · intro acc ls
    simp only [countCovered]
    rw [if_pos h3, hn]
    simp [hnpos]

/-- C10 witness: the line `a.go:1.1,2.2 1 -5` parses as a negative
count and yields an uncovered record for `a.go`. -/
theorem C10_witness :
    pyInt? ((pySplit (pyStrip (("a.go:1.1,2.2 1 -5").toList))).getD 2 []) = some (-5) ∧
    processLine (("a.go:1.1,2.2 1 -5").toList) = .record (("a.go").toList) false :=
  ⟨by decide,
    (C10_amended (("a.go:1.1,2.2 1 -5").toList) (-5) (("a.go").toList)
      (by decide) (by decide) (by decide) (by decide)).1⟩

/-- C10 counterexample: `abc 1 -5` has 3 tokens and a negative count,
but its first token has no colon, so — contrary to the claim — it
increments nothing: the run ends with total 0. -/
theorem C10_counterexample :
    processLine (("abc 1 -5").toList) = LineRes.skip ∧
    analyze_coverage [("mode: set").toList, ("abc 1 -5").toList] = .ok initState ∧
    initState.total_statements = 0 :=
  ⟨by decide, rfl, rfl⟩
